import Mathlib

/-!
fxdemo: the HTTP host built in `getting_started/main.go` and `main.go`.

The development embeds the repository's functions (`NewServeMux`, the two route
handlers, the `OnStart`/`OnStop` hooks of `NewHTTPServer`) together with the
parts of the Go standard library they call: `net/http`'s `ServeMux`
(registration, matching, path canonicalisation), `http.Error`, `io.Copy`,
`io.ReadAll`, `net.Listen` and `http.Server`'s `Serve`/`Shutdown`.

Go strings are modelled as lists of characters; every byte the library inspects
(`/`, `.`, `:`, `[`, `]`, `*`) is ASCII, so the character view and the byte view
agree on them.  A Go panic is an `Except.error`.

The mux is described for literal patterns: a rooted path such as `/echo`, or a
rooted subtree such as `/images/`.  A pattern that uses the mux's pattern
language (a method, a host, a `{wildcard}` segment, a percent escape) is outside
what the definitions of `Handle` and `match` describe, and every statement about
what a compiled table dispatches is made for literal patterns.
-/

namespace FxDemo

/-- A Go string. -/
abbrev GoString := List Char

/-! ## Logging (`zap.Logger`) -/

/-- Severity of a log line. -/
inductive Level where
  | info
  | warn
  | error
deriving DecidableEq, Repr

/-- One line written through the logger: its level and its message. -/
structure LogEntry where
  level : Level
  msg : GoString
deriving DecidableEq, Repr

/-! ## Requests and response writers -/

/-- The request body as a reader: the bytes it delivers and, when reading breaks,
the error met after them (`none` is a clean end of file). -/
structure ReadCloser where
  data : GoString
  err : Option GoString
deriving DecidableEq, Repr

/-- The fields of `http.Request` the program looks at.  `Path` is `r.URL.Path`,
`URLHost` is `r.URL.Host`, `RawQuery` is `r.URL.RawQuery`, `Proto11` is
`r.ProtoAtLeast(1, 1)`.  The path is the decoded one and the request carries no
encoding of its own for it (`r.URL.RawPath` is empty). -/
structure Request where
  Method : GoString
  Host : GoString
  URLHost : GoString
  Path : GoString
  RawQuery : GoString
  Proto11 : Bool
  Body : ReadCloser
deriving DecidableEq, Repr

/-- The observable state of an `http.ResponseWriter`: the header map, the status
once the header has been written, the body written so far, and whether the
underlying connection refuses writes. -/
structure ResponseWriter where
  header : List (GoString × GoString)
  status : Option Nat
  body : GoString
  broken : Bool
deriving DecidableEq, Repr

namespace http

def StatusOK : Nat := 200
def StatusTemporaryRedirect : Nat := 307
def StatusBadRequest : Nat := 400
def StatusNotFound : Nat := 404
def StatusInternalServerError : Nat := 500

/-- The writer the server hands to a handler for a new request. -/
def newResponse : ResponseWriter :=
  { header := [], status := none, body := [], broken := false }

/-- `Header.Set`. -/
def headerSet (w : ResponseWriter) (k v : GoString) : ResponseWriter :=
  { w with header := (k, v) :: w.header.filter (fun kv => kv.1 ≠ k) }

/-- `Header.Del`. -/
def headerDel (w : ResponseWriter) (k : GoString) : ResponseWriter :=
  { w with header := w.header.filter (fun kv => kv.1 ≠ k) }

/-- `ResponseWriter.WriteHeader`: the first call fixes the status, later calls
are superfluous and ignored. -/
def WriteHeader (w : ResponseWriter) (code : Nat) : ResponseWriter :=
  match w.status with
  | some _ => w
  | none => { w with status := some code }

/-- `ResponseWriter.Write`: writes the header with status 200 when none was
written yet, then appends the bytes, or reports an error on a broken
connection. -/
def Write (w : ResponseWriter) (p : GoString) : ResponseWriter × Option GoString :=
  let w1 := WriteHeader w StatusOK
  if w1.broken then (w1, some "write: broken pipe".toList)
  else ({ w1 with body := w1.body ++ p }, none)

/-- The status the client sees once the handler has returned: the server writes
the header with status 200 when the handler wrote none. -/
def statusCode (w : ResponseWriter) : Nat :=
  w.status.getD StatusOK

/-- `http.Error`. -/
def Error (w : ResponseWriter) (error : GoString) (code : Nat) : ResponseWriter :=
  let w1 := headerDel w "Content-Length".toList
  let w2 := headerSet w1 "Content-Type".toList "text/plain; charset=utf-8".toList
  let w3 := headerSet w2 "X-Content-Type-Options".toList "nosniff".toList
  let w4 := WriteHeader w3 code
  (Write w4 (error ++ ['\n'])).1

end http

namespace io

/-- `io.Copy(w, r.Body)`: the bytes read are written to `w`; the result is the
first error met, a write error before the read error that follows the data. -/
def Copy (w : ResponseWriter) (src : ReadCloser) : ResponseWriter × Option GoString :=
  if src.data = [] then (w, src.err)
  else
    match http.Write w src.data with
    | (w1, some e) => (w1, some e)
    | (w1, none) => (w1, src.err)

/-- `io.ReadAll(r.Body)`: the bytes read and the error that ended the read. -/
def ReadAll (src : ReadCloser) : GoString × Option GoString :=
  (src.data, src.err)

end io

/-! ## The Route contract and the two handlers (`getting_started/main.go`) -/

/-- `Route`: an `http.Handler` that knows the mux pattern under which it is
registered.  `ServeHTTP` returns the writer after the call and the lines the
handler logged. -/
structure Route where
  Pattern : GoString
  ServeHTTP : ResponseWriter → Request → ResponseWriter × List LogEntry

/-- `(*EchoHandler).ServeHTTP`. -/
def EchoHandler.ServeHTTP (w : ResponseWriter) (r : Request) :
    ResponseWriter × List LogEntry :=
  match io.Copy w r.Body with
  | (w1, some _) => (w1, [⟨Level.warn, "Error serving HTTP request:".toList⟩])
  | (w1, none) => (w1, [])

/-- `(*EchoHandler).Pattern`. -/
def EchoHandler.Pattern : GoString := "/echo".toList

/-- `(*HelloHandler).ServeHTTP`. -/
def HelloHandler.ServeHTTP (w : ResponseWriter) (r : Request) :
    ResponseWriter × List LogEntry :=
  match io.ReadAll r.Body with
  | (_, some _) =>
    (http.Error w "failed while processing the request body".toList
        http.StatusInternalServerError,
      [⟨Level.error, "Error serving HTTP request".toList⟩])
  | (body, none) =>
    match http.Write w ("Hello ".toList ++ body) with
    | (w1, some _) =>
      (http.Error w1 "failed writing the response".toList http.StatusInternalServerError,
        [⟨Level.error, "Error serving HTTP request".toList⟩])
    | (w1, none) => (w1, [])

/-- `(*HelloHandler).Pattern`. -/
def HelloHandler.Pattern : GoString := "/hello".toList

/-- `AsRoute(NewEchoHandler)`: the echo handler seen through the `Route`
interface. -/
def NewEchoHandler : Route := ⟨EchoHandler.Pattern, EchoHandler.ServeHTTP⟩

/-- `AsRoute(NewHelloHandler)`: the greeting handler seen through the `Route`
interface. -/
def NewHelloHandler : Route := ⟨HelloHandler.Pattern, HelloHandler.ServeHTTP⟩

/-! ## `path.Clean` and the mux's path canonicalisation -/

namespace path

/-- The elements of a path: the pieces between its slashes. -/
def elements : GoString → List GoString
  | [] => [[]]
  | c :: cs =>
    if c = '/' then [] :: elements cs
    else
      match elements cs with
      | [] => [[c]]
      | e :: es => (c :: e) :: es

/-- One turn of the loop of `path.Clean`, on the path elements kept so far (the
last one first): an empty element and `.` are dropped, `..` removes the last
element kept when there is one to back up over, is kept on a path that is not
rooted and dropped at the root, and any other element is kept. -/
def step (rooted : Bool) (out : List GoString) (e : GoString) : List GoString :=
  if e = [] ∨ e = ['.'] then out
  else if e = ['.', '.'] then
    match out with
    | top :: rest =>
      if top ≠ ['.', '.'] then rest
      else if rooted then out else e :: out
    | [] => if rooted then out else [e]
  else e :: out

/-- `path.Clean`: the shortest path name equivalent to `path` by lexical
processing.  The library scans the bytes and handles one slash or one path
element per turn of its loop; here the elements are taken one by one, and the
output buffer is the list of elements kept, joined by slashes at the end. -/
def Clean (path : GoString) : GoString :=
  if path = [] then ['.']
  else
    let rooted : Bool := path.head? = some '/'
    let out := ((elements path).foldl (step rooted) []).reverse
    let s := ['/'].intercalate out
    if rooted then '/' :: s
    else if s = [] then ['.'] else s

end path

namespace net

/-- `net.SplitHostPort`: host and port of `host:port`, `[host]:port`; `none`
stands for the address error. -/
def SplitHostPort (hostport : GoString) : Option (GoString × GoString) :=
  let n := hostport.length
  if ¬ (':' ∈ hostport) then none
  else
    -- the port starts after the last colon
    let i := n - 1 - hostport.reverse.indexOf ':'
    let port := hostport.drop (i + 1)
    if hostport.head? = some '[' then
      let e := hostport.indexOf ']'
      if e = n then none
      else if e + 1 = n then none
      else if e + 1 ≠ i then none
      else
        let host := (hostport.take e).drop 1
        if '[' ∈ hostport.drop 1 then none
        else if ']' ∈ hostport.drop (e + 1) then none
        else some (host, port)
    else
      let host := hostport.take i
      if ':' ∈ host then none
      else if '[' ∈ hostport then none
      else if ']' ∈ hostport then none
      else some (host, port)

end net

namespace http

/-- `cleanPath`: the canonical path for `p`, eliminating `.` and `..` elements
and keeping a trailing slash. -/
def cleanPath (p : GoString) : GoString :=
  if p = [] then ['/']
  else
    let p1 := if p.head? ≠ some '/' then '/' :: p else p
    let np := path.Clean p1
    if p1.getLast? = some '/' ∧ np ≠ ['/'] then
      if p1.length = np.length + 1 ∧ np.isPrefixOf p1 then p1 else np ++ ['/']
    else np

/-- `stripHostPort`: `h` without any trailing `:port`. -/
def stripHostPort (h : GoString) : GoString :=
  if ¬ (':' ∈ h) then h
  else
    match net.SplitHostPort h with
    | none => h
    | some (host, _) => host

/-! ## `http.ServeMux`

Patterns are taken literally: fixed rooted paths such as `/favicon.ico`, rooted
subtrees such as `/images/` (the trailing slash makes the pattern match every
path under it), or the same behind a host name; an exact match wins over a
subtree, and a longer subtree over a shorter one.  The table is kept as a map
from pattern to entry and a slice of the subtree patterns sorted by length; on
literal patterns this finds the entry the mux's routing tree finds.
-/

/-- The panics of `ServeMux.Handle`: `http: invalid pattern` and
`http: multiple registrations for <pattern>`.  (The third one, `http: nil
handler`, cannot arise: a `Route` value is never nil here.) -/
inductive Panic where
  | invalidPattern
  | multipleRegistrations (pattern : GoString)
deriving DecidableEq, Repr

/-- An entry of the mux: the handler and the pattern it was registered under. -/
structure muxEntry where
  h : Route
  pattern : GoString

/-- `http.ServeMux`: the map `m` from pattern to entry, the slice `es` of the
entries whose pattern ends in a slash, sorted from longest to shortest, and the
flag `hosts` saying whether any pattern contains a host name. -/
structure ServeMux where
  m : GoString → Option muxEntry
  es : List muxEntry
  hosts : Bool

/-- `http.NewServeMux`. -/
def NewServeMux : ServeMux :=
  { m := fun _ => none, es := [], hosts := false }

/-- `appendSorted`: `e` is put before the first entry whose pattern is shorter
than its own (`sort.Search` finds that entry in the sorted slice). -/
def appendSorted : List muxEntry → muxEntry → List muxEntry
  | [], e => [e]
  | x :: xs, e =>
    if x.pattern.length < e.pattern.length then e :: x :: xs
    else x :: appendSorted xs e

/-- `(*ServeMux).Handle`: registers the handler for the pattern; panics on an
empty pattern and on a pattern that is already registered.  The pattern is
registered as a literal one (`literalPattern` below says which patterns the mux
reads so). -/
def ServeMux.Handle (mux : ServeMux) (pattern : GoString) (handler : Route) :
    Except Panic ServeMux :=
  if pattern = [] then .error .invalidPattern
  else if (mux.m pattern).isSome then .error (.multipleRegistrations pattern)
  else
    let e : muxEntry := { h := handler, pattern := pattern }
    .ok { m := fun k => if k = pattern then some e else mux.m k
          es := if pattern.getLast? = some '/' then appendSorted mux.es e else mux.es
          hosts := if pattern.head? ≠ some '/' then true else mux.hosts }

/-- `(*ServeMux).match`, on literal patterns: an exact match first, then the
longest pattern ending in a slash that is a prefix of the path. -/
def ServeMux.match_ (mux : ServeMux) (path : GoString) : Option muxEntry :=
  match mux.m path with
  | some v => some v
  | none => mux.es.find? (fun e => e.pattern.isPrefixOf path)

/-- What `(*ServeMux).Handler` can hand back: a registered route, the redirect
handler for a target URL, or the not-found handler. -/
inductive Handler where
  | route (r : Route)
  | redirect (path : GoString) (rawQuery : GoString) (code : Nat)
  | notFound

/-- `(*ServeMux).handler`: a host-specific pattern takes precedence over a
generic one; without a match the not-found handler and the empty pattern. -/
def ServeMux.handler (mux : ServeMux) (host path : GoString) : Handler × GoString :=
  let h1 := if mux.hosts then mux.match_ (host ++ path) else none
  let h2 := match h1 with
    | some e => some e
    | none => mux.match_ path
  match h2 with
  | some e => (Handler.route e.h, e.pattern)
  | none => (Handler.notFound, [])

/-- `(*ServeMux).shouldRedirectRLocked`: `path` is not registered but
`path + "/"` is. -/
def ServeMux.shouldRedirectRLocked (mux : ServeMux) (host path : GoString) : Bool :=
  if (mux.m path).isSome ∨ (mux.m (host ++ path)).isSome then false
  else if path = [] then false
  else if (mux.m (path ++ ['/'])).isSome then path.getLast? ≠ some '/'
  else if (mux.m ((host ++ path) ++ ['/'])).isSome then path.getLast? ≠ some '/'
  else false

/-- `(*ServeMux).redirectToPathSlash(host, path, u)`: when `path` is not
registered but `path + "/"` is, the path to redirect to, which is the clean form
of `u.Path` followed by a slash. -/
def ServeMux.redirectToPathSlash (mux : ServeMux) (host path u : GoString) :
    Option GoString :=
  if mux.shouldRedirectRLocked host path then some (cleanPath u ++ ['/']) else none

/-- `(*ServeMux).Handler`: the handler to use for the request and the pattern
it is registered under.  CONNECT requests are not canonicalised; all other
requests have any port stripped and the path cleaned, and are redirected to the
cleaned path when it differs.  The redirects are temporary ones (307). -/
def ServeMux.Handler (mux : ServeMux) (r : Request) : Handler × GoString :=
  if r.Method = "CONNECT".toList then
    match mux.redirectToPathSlash r.URLHost r.Path r.Path with
    | some p => (Handler.redirect p r.RawQuery StatusTemporaryRedirect, p)
    | none => mux.handler r.Host r.Path
  else
    let host := stripHostPort r.Host
    let path := cleanPath r.Path
    match mux.redirectToPathSlash host path r.Path with
    | some p => (Handler.redirect p r.RawQuery StatusTemporaryRedirect, p)
    | none =>
      if path ≠ r.Path then
        (Handler.redirect path r.RawQuery StatusTemporaryRedirect, (mux.handler host path).2)
      else mux.handler host r.Path

/-- `http.StatusText`, for the codes that occur here (the empty string for any
other code). -/
def StatusText (code : Nat) : GoString :=
  if code = 200 then "OK".toList
  else if code = 301 then "Moved Permanently".toList
  else if code = 307 then "Temporary Redirect".toList
  else if code = 400 then "Bad Request".toList
  else if code = 404 then "Not Found".toList
  else if code = 500 then "Internal Server Error".toList
  else []

/-- The UTF-8 bytes of a character. -/
def utf8 (c : Char) : List Nat :=
  let n := c.toNat
  if n < 128 then [n]
  else if n < 2048 then [192 + n / 64, 128 + n % 64]
  else if n < 65536 then [224 + n / 4096, 128 + n / 64 % 64, 128 + n % 64]
  else [240 + n / 262144, 128 + n / 4096 % 64, 128 + n / 64 % 64, 128 + n % 64]

/-- A hexadecimal digit, in upper or lower case. -/
def hexDigit (upper : Bool) (n : Nat) : Char :=
  if n < 10 then Char.ofNat (48 + n)
  else Char.ofNat ((if upper then 55 else 87) + n)

/-- `url.shouldEscape(c, encodePath)`: letters, digits, the marks `-_.~` and the
reserved characters other than `?` stay as they are in a path. -/
def shouldEscape (c : Char) : Bool :=
  ¬ (c.isAlphanum ∨ c ∈ "-_.~$&+,/:;=@".toList)

/-- `url.escape(s, encodePath)`: each byte to escape becomes `%XX`. -/
def escape (s : GoString) : GoString :=
  s.flatMap (fun c =>
    if shouldEscape c then
      (utf8 c).flatMap (fun b => ['%', hexDigit true (b / 16), hexDigit true (b % 16)])
    else [c])

/-- `(&url.URL{Path: path, RawQuery: rawQuery}).String()`: the escaped path
(`*` as it is), behind `./` when its first segment holds a colon, and the query
behind a question mark when there is one. -/
def urlString (path rawQuery : GoString) : GoString :=
  let p := if path = ['*'] then path else escape path
  let lead := if ':' ∈ p.takeWhile (fun c => c ≠ '/') then "./".toList else []
  lead ++ p ++ (if rawQuery = [] then [] else '?' :: rawQuery)

/-- `hexEscapeNonASCII`: each byte outside ASCII becomes `%xx`. -/
def hexEscapeNonASCII (s : GoString) : GoString :=
  s.flatMap (fun c =>
    if c.toNat < 128 then [c]
    else (utf8 c).flatMap (fun b => ['%', hexDigit false (b / 16), hexDigit false (b % 16)]))

/-- `htmlEscape`. -/
def htmlEscape (s : GoString) : GoString :=
  s.flatMap (fun c =>
    if c = '&' then "&amp;".toList
    else if c = '<' then "&lt;".toList
    else if c = '>' then "&gt;".toList
    else if c = '"' then "&#34;".toList
    else if c = Char.ofNat 39 then "&#39;".toList
    else [c])

/-- `http.Redirect(w, r, url, code)` for the targets the mux passes, which are
rooted and clean, so that the rewriting `http.Redirect` applies to a relative or
unclean target leaves them as they are.  The `Location` header is set; a GET or
HEAD request that had no `Content-Type` gets one, and a GET request also the
short HTML note. -/
def Redirect (w : ResponseWriter) (r : Request) (url : GoString) (code : Nat) :
    ResponseWriter :=
  let hadCT : Bool := w.header.any (fun kv => kv.1 = "Content-Type".toList)
  let w1 := headerSet w "Location".toList (hexEscapeNonASCII url)
  let w2 :=
    if ¬ hadCT ∧ (r.Method = "GET".toList ∨ r.Method = "HEAD".toList) then
      headerSet w1 "Content-Type".toList "text/html; charset=utf-8".toList
    else w1
  let w3 := WriteHeader w2 code
  if ¬ hadCT ∧ r.Method = "GET".toList then
    (Write w3 ("<a href=\"".toList ++ htmlEscape url ++ "\">".toList ++ StatusText code
      ++ "</a>.\n".toList ++ ['\n'])).1
  else w3

/-- `ServeHTTP` of the handler picked by the mux: the route's own, or
`http.Redirect` to the target URL, or
`http.Error(w, "404 page not found", 404)`. -/
def Handler.ServeHTTP (h : Handler) (w : ResponseWriter) (r : Request) :
    ResponseWriter × List LogEntry :=
  match h with
  | .route rt => rt.ServeHTTP w r
  | .redirect p q code => (Redirect w r (urlString p q) code, [])
  | .notFound => (Error w "404 page not found".toList StatusNotFound, [])

/-- `r.RequestURI == "*"`.  The server parses the request target `*`, and no
other target, to the URL path `*`, so the test is made on the path. -/
def isAsteriskForm (r : Request) : Bool :=
  r.Path = ['*']

/-- `(*ServeMux).ServeHTTP`: dispatches the request to the handler whose pattern
most closely matches the request URL. -/
def ServeMux.ServeHTTP (mux : ServeMux) (w : ResponseWriter) (r : Request) :
    ResponseWriter × List LogEntry :=
  if isAsteriskForm r then
    let w1 := if r.Proto11 then headerSet w "Connection".toList "close".toList else w
    (WriteHeader w1 StatusBadRequest, [])
  else (mux.Handler r).1.ServeHTTP w r

end http

/-! ## `NewServeMux` (`getting_started/main.go`) -/

/-- The loop of `NewServeMux`: `mux.Handle(routes[i].Pattern(), routes[i])` for
each route in turn; a panic of `Handle` ends it. -/
def NewServeMux.loop (mux : http.ServeMux) : List Route → Except http.Panic http.ServeMux
  | [] => .ok mux
  | r :: rs =>
    match mux.Handle r.Pattern r with
    | .error e => .error e
    | .ok mux1 => NewServeMux.loop mux1 rs

/-- `NewServeMux(routes []Route)`. -/
def NewServeMux (routes : List Route) : Except http.Panic http.ServeMux :=
  NewServeMux.loop http.NewServeMux routes

/-- A request as a client would send it for a path, with a body that reads
without error. -/
def request (method path body : GoString) : Request :=
  { Method := method, Host := "localhost:8080".toList, URLHost := [], Path := path,
    RawQuery := [], Proto11 := true, Body := { data := body, err := none } }

/-- What the compiled table answers to a request on a fresh writer; `none` when
`NewServeMux` panicked. -/
def serve (routes : List Route) (r : Request) : Option (ResponseWriter × List LogEntry) :=
  match NewServeMux routes with
  | .error _ => none
  | .ok mux => some (mux.ServeHTTP http.newResponse r)

/-! ## Listening sockets (`net.Listen`) -/

namespace net

/-- Why `net.Listen` failed: the address is already in use, or the system
refused for another reason (its error number). -/
inductive OpError where
  | addrInUse
  | other (errno : Nat)
deriving DecidableEq, Repr

/-- A `net.Listener`: an open listening socket, known by the address it is
bound to. -/
structure Listener where
  addr : GoString
deriving DecidableEq, Repr

/-- The part of the operating system the program talks to: the addresses on
which a listening socket is open (in this process or another) and a standing
refusal of new sockets, if any. -/
structure World where
  bound : List GoString
  fault : Option Nat
deriving DecidableEq, Repr

/-- `net.Listen(network, address)`: binds a listening socket.  An address
already held by an open listener cannot be bound again. -/
def Listen (w : World) (_network address : GoString) : Except OpError (Listener × World) :=
  match w.fault with
  | some errno => .error (.other errno)
  | none =>
    if address ∈ w.bound then .error .addrInUse
    else .ok ({ addr := address }, { w with bound := address :: w.bound })

/-- `Listener.Close`: the socket is closed and its address is free again. -/
def Listener.Close (ln : Listener) (w : World) : World :=
  { w with bound := w.bound.erase ln.addr }

end net

/-- A Go `error` value as the hooks return it. -/
inductive GoError where
  | listen (e : net.OpError)
  | contextDone
deriving DecidableEq, Repr

/-- A `context.Context`, by what `Shutdown` sees of it: the number of times the
connections are polled before `ctx.Done()` fires (0: it has fired already). -/
abbrev Context := Nat

/-! ## `http.Server` -/

namespace http

/-- The fields of `http.Server` that `Serve` and `Shutdown` use: the address,
the handler, the `inShutdown` flag, the listeners tracked by running `Serve`
loops, and the open connections, each with the number of polls its request in
flight still needs (0: the connection is idle). -/
structure Server where
  Addr : GoString
  Handler : ServeMux
  inShutdown : Bool
  listeners : List net.Listener
  conns : List Nat

/-- `go srv.Serve(ln)`, once the goroutine has reached its accept loop or has
returned: after `Shutdown`, `trackListener` refuses, `Serve` returns
`ErrServerClosed` and its deferred `l.Close()` closes the listener; otherwise
the listener is tracked and served until shutdown. -/
def Server.Serve (srv : Server) (w : net.World) (ln : net.Listener) : Server × net.World :=
  if srv.inShutdown then (srv, ln.Close w)
  else ({ srv with listeners := ln :: srv.listeners }, w)

/-- `closeListenersLocked`: closes every tracked listener. -/
def Server.closeListenersLocked (srv : Server) (w : net.World) : net.World :=
  srv.listeners.foldl (fun w1 ln => ln.Close w1) w

/-- `closeIdleConns`: closes the idle connections; the ones left are busy. -/
def closeIdleConns (conns : List Nat) : List Nat :=
  conns.filter (fun c => c ≠ 0)

/-- The polling loop of `Shutdown`: returns nil as soon as no connection is
left, the error of `ctx` when it is done before that, and polls again
otherwise, the requests in flight having advanced. -/
def shutdownPoll : Context → List Nat → List Nat × Option GoError
  | ctx, conns =>
    let busy := closeIdleConns conns
    if busy = [] then ([], none)
    else
      match ctx with
      | 0 => (busy, some GoError.contextDone)
      | ctx1 + 1 => shutdownPoll ctx1 (busy.map (fun c => c - 1))

/-- `(*Server).Shutdown(ctx)`: sets `inShutdown`, closes the listeners (the
`Serve` loops return and untrack them), then waits for the connections to
become idle, as long as `ctx` allows. -/
def Server.Shutdown (srv : Server) (w : net.World) (ctx : Context) :
    Server × net.World × Option GoError :=
  let w1 := srv.closeListenersLocked w
  let r := shutdownPoll ctx srv.conns
  ({ srv with inShutdown := true, listeners := [], conns := r.1 }, w1, r.2)

end http

/-! ## `NewHTTPServer` and its lifecycle hooks -/

/-- What the hooks act on: the operating system, the server and the log. -/
structure State where
  world : net.World
  srv : http.Server
  log : List LogEntry

/-- `NewHTTPServer`: `&http.Server{Addr: ":8080", Handler: mux}`. -/
def NewHTTPServer (mux : http.ServeMux) : http.Server :=
  { Addr := ":8080".toList, Handler := mux, inShutdown := false, listeners := [], conns := [] }

/-- The `OnStart` hook of `NewHTTPServer` in `getting_started/main.go`. -/
def NewHTTPServer.OnStart (_ctx : Context) (s : State) : State × Option GoError :=
  match net.Listen s.world "tcp".toList s.srv.Addr with
  | .error err =>
    ({ s with log := s.log ++ [⟨Level.error, "Error starting HTTP server:".toList⟩] },
      some (GoError.listen err))
  | .ok (ln, w1) =>
    let log1 := s.log ++ [⟨Level.info, "HTTP server listening on".toList⟩]
    let r := s.srv.Serve w1 ln
    ({ world := r.2, srv := r.1, log := log1 }, none)

/-- The `OnStop` hook of `NewHTTPServer` in `getting_started/main.go`. -/
def NewHTTPServer.OnStop (ctx : Context) (s : State) : State × Option GoError :=
  let log1 := s.log ++ [⟨Level.info, "Shutting down HTTP server".toList⟩]
  let r := s.srv.Shutdown s.world ctx
  ({ world := r.2.1, srv := r.1, log := log1 }, r.2.2)

namespace Root

/-- The `OnStart` hook of `NewHTTPServer` in `main.go`. -/
def NewHTTPServer.OnStart (_ctx : Context) (s : State) : State × Option GoError :=
  match net.Listen s.world "tcp".toList s.srv.Addr with
  | .error err => (s, some (GoError.listen err))
  | .ok (ln, w1) =>
    let log1 := s.log ++ [⟨Level.info, "Starting HTTP server".toList⟩]
    let r := s.srv.Serve w1 ln
    ({ world := r.2, srv := r.1, log := log1 }, none)

/-- The `OnStop` hook of `NewHTTPServer` in `main.go`. -/
def NewHTTPServer.OnStop (ctx : Context) (s : State) : State × Option GoError :=
  let r := s.srv.Shutdown s.world ctx
  ({ s with world := r.2.1, srv := r.1 }, r.2.2)

end Root

/-- The lifecycle states of the specification. -/
inductive Lifecycle where
  | Unstarted
  | Listening
  | ShuttingDown
  | Stopped
deriving DecidableEq, Repr

/-- The lifecycle state a server is in, read off its fields: before `Shutdown`
it is `Listening` when a `Serve` loop holds a listener and `Unstarted`
otherwise; after `Shutdown` it is `Stopped` when no listener and no connection
is left and `ShuttingDown` until then. -/
def lifecycle (srv : http.Server) : Lifecycle :=
  if srv.inShutdown then
    if srv.listeners = [] ∧ srv.conns = [] then .Stopped else .ShuttingDown
  else if srv.listeners = [] then .Unstarted else .Listening

/-- The operations the host applies to one server instance. -/
inductive Op where
  | start (ctx : Context)
  | stop (ctx : Context)
deriving DecidableEq, Repr

/-- One operation of the host. -/
def Op.apply : Op → State → State × Option GoError
  | .start ctx, s => NewHTTPServer.OnStart ctx s
  | .stop ctx, s => NewHTTPServer.OnStop ctx s

/-- A sequence of operations applied in order, whatever each one returns. -/
def run : List Op → State → State
  | [], s => s
  | op :: ops, s => run ops (op.apply s).1

/-- A system in which nothing listens yet, with a server just built. -/
def initial (mux : http.ServeMux) : State :=
  { world := { bound := [], fault := none }, srv := NewHTTPServer mux, log := [] }

/-! ## Vocabulary for the statements about dispatch -/

/-- A pattern matches the string `c` looked up in the mux: it is `c` itself, or
it ends in a slash and is a prefix of `c` followed by a slash (the subtree it
names contains `c`, or `c` is redirected into it). -/
def patternMatches (pattern c : GoString) : Bool :=
  pattern == c || (pattern.getLast? == some '/' && pattern.isPrefixOf (c ++ ['/']))

/-- The strings the mux looks up for a request: the path, and the path behind
each host the request carries (`r.Host` with and without its port, and for
CONNECT `r.URL.Host`). -/
def candidates (r : Request) : List GoString :=
  [r.Path, http.stripHostPort r.Host ++ r.Path, r.Host ++ r.Path, r.URLHost ++ r.Path]

/-- The request path is one the mux answers without a redirect to its clean
form and without the 400 of the asterisk form: it is not `*`, and `cleanPath`
leaves it unchanged or the method is CONNECT. -/
def canonical (r : Request) : Prop :=
  r.Path ≠ ['*'] ∧ (r.Method = "CONNECT".toList ∨ http.cleanPath r.Path = r.Path)

/-- A literal pattern: a rooted path in clean form (`cleanPath` leaves it
unchanged: no empty, `.` or `..` element) that holds none of the characters the
mux's pattern language gives a meaning to (a blank or tab ends a method, braces
make a wildcard, a percent sign starts an escape).  The mux reads such a
pattern as the path, or the subtree when it ends in a slash, that it spells. -/
def literalPattern (p : GoString) : Bool :=
  p.head? == some '/' && http.cleanPath p == p &&
    p.all (fun c => c ≠ ' ' ∧ c ≠ '	' ∧ c ≠ '{' ∧ c ≠ '}' ∧ c ≠ '%')

/-- A route with the given pattern whose handler answers with the given body. -/
def stubRoute (pattern body : GoString) : Route :=
  { Pattern := pattern, ServeHTTP := fun w _ => ((http.Write w body).1, []) }

/-- What a mux holds when exactly the routes of `rs` have been registered: the
map `m` has each route under its pattern and nothing else, `es` has the entries
whose pattern ends in a slash, longest first, `hosts` tells whether a pattern
does not start with a slash, and no pattern is empty. -/
structure Built (rs : List Route) (mux : http.ServeMux) : Prop where
  m_some : ∀ p e, mux.m p = some e → e.pattern = p ∧ e.h ∈ rs ∧ e.h.Pattern = p
  m_mem : ∀ r ∈ rs, mux.m r.Pattern = some ⟨r, r.Pattern⟩
  es_mem : ∀ e, e ∈ mux.es ↔
    (e.h ∈ rs ∧ e.pattern = e.h.Pattern ∧ e.pattern.getLast? = some '/')
  es_sorted : mux.es.Pairwise (fun a b => b.pattern.length ≤ a.pattern.length)
  hosts : mux.hosts = true ↔ ∃ r ∈ rs, r.Pattern.head? ≠ some '/'
  nonempty : ∀ r ∈ rs, r.Pattern ≠ []

end FxDemo

/-! # Theorems -/

namespace FxDemo

/-! ## The lifecycle hooks -/

theorem Listen_ok_bound {w w1 : net.World} {nw a : GoString} {ln : net.Listener}
    (h : net.Listen w nw a = .ok (ln, w1)) :
    ln.addr = a ∧ w1.fault = none ∧ a ∈ w1.bound := by
  unfold net.Listen at h
  cases hf : w.fault with
  | some n => simp [hf] at h
  | none =>
    simp only [hf] at h
    by_cases hb : a ∈ w.bound
    · simp [hb] at h
    · simp only [hb, if_false, Except.ok.injEq, Prod.mk.injEq] at h
      obtain ⟨h1, h2⟩ := h
      subst h1 h2
      simp [hf]

theorem lifecycle_Unstarted {srv : http.Server} (h : lifecycle srv = .Unstarted) :
    srv.inShutdown = false ∧ srv.listeners = [] := by
  unfold lifecycle at h
  split_ifs at h with h1 h2 h3
  exact ⟨by simpa using h1, h3⟩

theorem lifecycle_Listening {srv : http.Server} (h : lifecycle srv = .Listening) :
    srv.inShutdown = false ∧ srv.listeners ≠ [] := by
  unfold lifecycle at h
  split_ifs at h with h1 h2 h3
  exact ⟨by simpa using h1, h3⟩

theorem lifecycle_Stopped {srv : http.Server} (h : lifecycle srv = .Stopped) :
    srv.inShutdown = true ∧ srv.listeners = [] ∧ srv.conns = [] := by
  unfold lifecycle at h
  split_ifs at h with h1 h2 h3
  exact ⟨h1, h2.1, h2.2⟩

theorem OnStart_error {ctx : Context} {s : State} {e : net.OpError}
    (h : net.Listen s.world "tcp".toList s.srv.Addr = .error e) :
    NewHTTPServer.OnStart ctx s =
      ({ s with log := s.log ++ [⟨Level.error, "Error starting HTTP server:".toList⟩] },
        some (GoError.listen e)) := by
  unfold NewHTTPServer.OnStart
  rw [h]

theorem OnStart_ok {ctx : Context} {s : State} {ln : net.Listener} {w1 : net.World}
    (h : net.Listen s.world "tcp".toList s.srv.Addr = .ok (ln, w1)) :
    NewHTTPServer.OnStart ctx s =
      ({ world := (s.srv.Serve w1 ln).2, srv := (s.srv.Serve w1 ln).1,
         log := s.log ++ [⟨Level.info, "HTTP server listening on".toList⟩] }, none) := by
  unfold NewHTTPServer.OnStart
  rw [h]

theorem Root_OnStart_error {ctx : Context} {s : State} {e : net.OpError}
    (h : net.Listen s.world "tcp".toList s.srv.Addr = .error e) :
    Root.NewHTTPServer.OnStart ctx s = (s, some (GoError.listen e)) := by
  unfold Root.NewHTTPServer.OnStart
  rw [h]

/-- C4: when acquiring the listener on the configured address fails, the
`OnStart` hook (of either `main.go`) returns that very error, and neither the
server (its listeners, its `inShutdown` flag, hence its lifecycle state) nor the
set of bound addresses changes: no serving loop is started, and a server that
was `Unstarted` stays `Unstarted`. -/
theorem OnStart_bind_failure (ctx : Context) (s : State) (e : net.OpError)
    (h : net.Listen s.world "tcp".toList s.srv.Addr = .error e) :
    (NewHTTPServer.OnStart ctx s).2 = some (GoError.listen e) ∧
    (NewHTTPServer.OnStart ctx s).1.srv = s.srv ∧
    (NewHTTPServer.OnStart ctx s).1.world = s.world ∧
    (Root.NewHTTPServer.OnStart ctx s).2 = some (GoError.listen e) ∧
    (Root.NewHTTPServer.OnStart ctx s).1 = s ∧
    (lifecycle s.srv = .Unstarted →
      lifecycle (NewHTTPServer.OnStart ctx s).1.srv = .Unstarted ∧
      (NewHTTPServer.OnStart ctx s).1.srv.listeners = []) := by
  rw [OnStart_error h, Root_OnStart_error h]
  exact ⟨rfl, rfl, rfl, rfl, rfl, fun hu => ⟨hu, (lifecycle_Unstarted hu).2⟩⟩

theorem OnStart_bind_failure_witness :
    (NewHTTPServer.OnStart 0
        ⟨⟨[":8080".toList], none⟩, NewHTTPServer http.NewServeMux, []⟩).2
      = some (GoError.listen net.OpError.addrInUse) :=
  (OnStart_bind_failure 0 ⟨⟨[":8080".toList], none⟩, NewHTTPServer http.NewServeMux, []⟩
    net.OpError.addrInUse rfl).1

/-- C5: when `OnStart` has succeeded and the server is `Listening`, a second
`OnStart` with no `OnStop` in between returns an error (the address is in use),
and leaves the server and the bound addresses exactly as they were: the first
listener is still tracked by its `Serve` loop and the state is still
`Listening`. -/
theorem OnStart_twice (ctx ctx2 : Context) (s : State)
    (hok : (NewHTTPServer.OnStart ctx s).2 = none)
    (hl : lifecycle (NewHTTPServer.OnStart ctx s).1.srv = .Listening) :
    (NewHTTPServer.OnStart ctx2 (NewHTTPServer.OnStart ctx s).1).2
      = some (GoError.listen net.OpError.addrInUse) ∧
    (NewHTTPServer.OnStart ctx2 (NewHTTPServer.OnStart ctx s).1).1.srv
      = (NewHTTPServer.OnStart ctx s).1.srv ∧
    (NewHTTPServer.OnStart ctx2 (NewHTTPServer.OnStart ctx s).1).1.world
      = (NewHTTPServer.OnStart ctx s).1.world ∧
    lifecycle (NewHTTPServer.OnStart ctx2 (NewHTTPServer.OnStart ctx s).1).1.srv
      = .Listening ∧
    (⟨s.srv.Addr⟩ : net.Listener) ∈ (NewHTTPServer.OnStart ctx s).1.srv.listeners := by
  cases hL : net.Listen s.world "tcp".toList s.srv.Addr with
  | error e =>
    rw [OnStart_error hL] at hok
    cases hok
  | ok p =>
    obtain ⟨ln, w1⟩ := p
    obtain ⟨ha, hf, hb⟩ := Listen_ok_bound hL
    rw [OnStart_ok hL] at hl ⊢
    have hs : s.srv.inShutdown = false := by
      have := (lifecycle_Listening hl).1
      unfold http.Server.Serve at this
      split_ifs at this with h1
      · simp only at this
        rw [h1] at this
        cases this
      · simpa using h1
    have hS : s.srv.Serve w1 ln = ({ s.srv with listeners := ln :: s.srv.listeners }, w1) := by
      unfold http.Server.Serve
      rw [if_neg (by simp [hs])]
    rw [hS] at hl ⊢
    have h2 : net.Listen w1 "tcp".toList s.srv.Addr = .error net.OpError.addrInUse := by
      unfold net.Listen
      rw [hf]
      simp only
      rw [if_pos hb]
    have hlis : ln = (⟨s.srv.Addr⟩ : net.Listener) := by
      cases ln
      simp only at ha
      rw [ha]
    have h3 := @OnStart_error ctx2
      { world := w1, srv := { s.srv with listeners := ln :: s.srv.listeners },
        log := s.log ++ [⟨Level.info, "HTTP server listening on".toList⟩] } _ h2
    simp only at h3 ⊢
    rw [h3]
    refine ⟨rfl, rfl, rfl, hl, ?_⟩
    rw [hlis]
    exact List.mem_cons_self _ _

theorem OnStart_twice_witness :
    (NewHTTPServer.OnStart 0
        (NewHTTPServer.OnStart 0 (initial http.NewServeMux)).1).2
      = some (GoError.listen net.OpError.addrInUse) :=
  (OnStart_twice 0 0 (initial http.NewServeMux) (by decide) (by decide)).1

theorem shutdownPoll_nil (ctx : Context) : http.shutdownPoll ctx [] = ([], none) := by
  cases ctx <;> simp [http.shutdownPoll, http.closeIdleConns]

/-- C6: for every deadline, the `OnStop` hook (of either `main.go`) called on a
server that was never started returns nil, and the set of bound addresses is
what it was and the server tracks no listener: none is acquired, none released.
Likewise `OnStop` on a server that is already `Stopped` returns nil and changes
neither the server nor the bound addresses. -/
theorem OnStop_idempotent (ctx : Context) :
    (∀ (mux : http.ServeMux) (w : net.World) (log : List LogEntry),
      (NewHTTPServer.OnStop ctx ⟨w, NewHTTPServer mux, log⟩).2 = none ∧
      (NewHTTPServer.OnStop ctx ⟨w, NewHTTPServer mux, log⟩).1.world = w ∧
      (NewHTTPServer.OnStop ctx ⟨w, NewHTTPServer mux, log⟩).1.srv.listeners = [] ∧
      (Root.NewHTTPServer.OnStop ctx ⟨w, NewHTTPServer mux, log⟩).2 = none ∧
      (Root.NewHTTPServer.OnStop ctx ⟨w, NewHTTPServer mux, log⟩).1.world = w ∧
      (Root.NewHTTPServer.OnStop ctx ⟨w, NewHTTPServer mux, log⟩).1.srv.listeners = []) ∧
    (∀ s : State, lifecycle s.srv = .Stopped →
      (NewHTTPServer.OnStop ctx s).2 = none ∧
      (NewHTTPServer.OnStop ctx s).1.world = s.world ∧
      (NewHTTPServer.OnStop ctx s).1.srv = s.srv ∧
      (Root.NewHTTPServer.OnStop ctx s).2 = none ∧
      (Root.NewHTTPServer.OnStop ctx s).1 = s) := by
  constructor
  · intro mux w log
    simp [NewHTTPServer.OnStop, Root.NewHTTPServer.OnStop, http.Server.Shutdown,
      http.Server.closeListenersLocked, NewHTTPServer, shutdownPoll_nil]
  · intro s hs
    obtain ⟨h1, h2, h3⟩ := lifecycle_Stopped hs
    obtain ⟨w, srv, log⟩ := s
    obtain ⟨a, hd, sd, ls, cs⟩ := srv
    simp only at h1 h2 h3
    subst h1 h2 h3
    simp [NewHTTPServer.OnStop, Root.NewHTTPServer.OnStop, http.Server.Shutdown,
      http.Server.closeListenersLocked, shutdownPoll_nil]

theorem OnStop_idempotent_witness :
    (NewHTTPServer.OnStop 0 (run [.start 3, .stop 5] (initial http.NewServeMux))).2 = none :=
  ((OnStop_idempotent 0).2 (run [.start 3, .stop 5] (initial http.NewServeMux))
    (by decide)).1

theorem apply_Stopped (op : Op) (s : State) (h : lifecycle s.srv = .Stopped) :
    (op.apply s).1.srv = s.srv := by
  obtain ⟨h1, h2, h3⟩ := lifecycle_Stopped h
  obtain ⟨w, srv, log⟩ := s
  obtain ⟨a, hd, sd, ls, cs⟩ := srv
  simp only at h1 h2 h3
  subst h1 h2 h3
  cases op with
  | start ctx =>
    simp only [Op.apply, NewHTTPServer.OnStart]
    cases hL : net.Listen w "tcp".toList a with
    | error e => rfl
    | ok p => rfl
  | stop ctx =>
    simp [Op.apply, NewHTTPServer.OnStop, http.Server.Shutdown, shutdownPoll_nil]

/-- C7: `Stopped` is terminal.  Once a server instance is `Stopped`, whatever
sequence of `OnStart`/`OnStop` calls follows, the server is left exactly as it
was: its state is `Stopped`, never `Listening` again, and no `Serve` loop holds
a listener, so it serves no request again. -/
theorem Stopped_terminal (ops : List Op) (s : State) (h : lifecycle s.srv = .Stopped) :
    lifecycle (run ops s).srv = .Stopped ∧
    lifecycle (run ops s).srv ≠ .Listening ∧
    (run ops s).srv.listeners = [] := by
  have key : ∀ (ops : List Op) (s : State), lifecycle s.srv = .Stopped →
      (run ops s).srv = s.srv := by
    intro ops
    induction ops with
    | nil => intro s _; rfl
    | cons op ops ih =>
      intro s hs
      have h1 := apply_Stopped op s hs
      simp only [run]
      rw [ih _ (h1 ▸ hs), h1]
  rw [key ops s h]
  exact ⟨h, by rw [h]; decide, (lifecycle_Stopped h).2.1⟩

theorem Stopped_terminal_witness :
    lifecycle (run [.start 0, .stop 1, .start 2]
      (run [.start 3, .stop 5] (initial http.NewServeMux))).srv ≠ .Listening :=
  (Stopped_terminal [.start 0, .stop 1, .start 2]
    (run [.start 3, .stop 5] (initial http.NewServeMux)) (by decide)).2.1

/-! ## The mux built by `NewServeMux` -/

theorem mem_appendSorted (es : List http.muxEntry) (e x : http.muxEntry) :
    x ∈ http.appendSorted es e ↔ x = e ∨ x ∈ es := by
  induction es with
  | nil => simp [http.appendSorted]
  | cons y ys ih =>
    unfold http.appendSorted
    split_ifs with h
    · simp
    · simp only [List.mem_cons, ih]
      tauto

theorem sorted_appendSorted (es : List http.muxEntry) (e : http.muxEntry)
    (hs : es.Pairwise (fun a b => b.pattern.length ≤ a.pattern.length)) :
    (http.appendSorted es e).Pairwise (fun a b => b.pattern.length ≤ a.pattern.length) := by
  induction es with
  | nil => simp [http.appendSorted]
  | cons y ys ih =>
    rw [List.pairwise_cons] at hs
    unfold http.appendSorted
    split_ifs with h
    · rw [List.pairwise_cons]
      refine ⟨?_, List.pairwise_cons.mpr hs⟩
      intro z hz
      rcases List.mem_cons.mp hz with rfl | hz
      · exact Nat.le_of_lt h
      · exact Nat.le_trans (hs.1 z hz) (Nat.le_of_lt h)
    · rw [List.pairwise_cons]
      refine ⟨?_, ih hs.2⟩
      intro z hz
      rcases (mem_appendSorted ys e z).mp hz with rfl | hz
      · exact Nat.le_of_not_lt h
      · exact hs.1 z hz

theorem Handle_ok {mux mux1 : http.ServeMux} {p : GoString} {h : Route}
    (hk : mux.Handle p h = .ok mux1) :
    p ≠ [] ∧ mux.m p = none ∧
    (∀ k, mux1.m k = if k = p then some ⟨h, p⟩ else mux.m k) ∧
    mux1.es = (if p.getLast? = some '/' then http.appendSorted mux.es ⟨h, p⟩ else mux.es) ∧
    mux1.hosts = (if p.head? ≠ some '/' then true else mux.hosts) := by
  unfold http.ServeMux.Handle at hk
  by_cases h1 : p = []
  · rw [if_pos h1] at hk
    cases hk
  · rw [if_neg h1] at hk
    by_cases h2 : (mux.m p).isSome = true
    · rw [if_pos h2] at hk
      cases hk
    · rw [if_neg h2] at hk
      simp only [Except.ok.injEq] at hk
      subst hk
      refine ⟨h1, ?_, fun k => rfl, rfl, rfl⟩
      cases hm : mux.m p with
      | none => rfl
      | some e => rw [hm] at h2; exact absurd rfl h2

theorem Handle_error {mux : http.ServeMux} {p : GoString} {h : Route} {e : http.Panic}
    (hk : mux.Handle p h = .error e) :
    (p = [] ∧ e = .invalidPattern) ∨
    (p ≠ [] ∧ (mux.m p).isSome = true ∧ e = .multipleRegistrations p) := by
  unfold http.ServeMux.Handle at hk
  by_cases h1 : p = []
  · rw [if_pos h1] at hk
    simp only [Except.error.injEq] at hk
    exact Or.inl ⟨h1, hk.symm⟩
  · rw [if_neg h1] at hk
    by_cases h2 : (mux.m p).isSome = true
    · rw [if_pos h2] at hk
      simp only [Except.error.injEq] at hk
      exact Or.inr ⟨h1, h2, hk.symm⟩
    · rw [if_neg h2] at hk
      cases hk

theorem Handle_succeeds {mux : http.ServeMux} {p : GoString} (h : Route)
    (h1 : p ≠ []) (h2 : mux.m p = none) : ∃ mux1, mux.Handle p h = .ok mux1 := by
  unfold http.ServeMux.Handle
  rw [if_neg h1, h2]
  exact ⟨_, if_neg (by simp)⟩

theorem Built_nil : Built [] http.NewServeMux where
  m_some := by intro p e h; simp [http.NewServeMux] at h
  m_mem := by intro r hr; cases hr
  es_mem := by intro e; simp [http.NewServeMux]
  es_sorted := by simp [http.NewServeMux]
  hosts := by simp [http.NewServeMux]
  nonempty := by intro r hr; cases hr

theorem Built_congr {rs rs2 : List Route} {mux : http.ServeMux}
    (hm : ∀ x, x ∈ rs ↔ x ∈ rs2) (hb : Built rs mux) : Built rs2 mux where
  m_some := by
    intro p e h
    obtain ⟨h1, h2, h3⟩ := hb.m_some p e h
    exact ⟨h1, (hm _).mp h2, h3⟩
  m_mem := fun r hr => hb.m_mem r ((hm r).mpr hr)
  es_mem := by
    intro e
    rw [hb.es_mem e, hm]
  es_sorted := hb.es_sorted
  hosts := by
    rw [hb.hosts]
    constructor
    · rintro ⟨r, hr, h⟩; exact ⟨r, (hm r).mp hr, h⟩
    · rintro ⟨r, hr, h⟩; exact ⟨r, (hm r).mpr hr, h⟩
  nonempty := fun r hr => hb.nonempty r ((hm r).mpr hr)

theorem Built.m_none {rs : List Route} {mux : http.ServeMux} (hb : Built rs mux)
    {p : GoString} (h : ∀ r ∈ rs, r.Pattern ≠ p) : mux.m p = none := by
  cases hm : mux.m p with
  | none => rfl
  | some e =>
    obtain ⟨_, h2, h3⟩ := hb.m_some p e hm
    exact absurd h3 (h _ h2)

theorem Built.inj {rs : List Route} {mux : http.ServeMux} (hb : Built rs mux)
    {a b : Route} (ha : a ∈ rs) (hb2 : b ∈ rs) (h : a.Pattern = b.Pattern) : a = b := by
  have h1 := hb.m_mem a ha
  have h2 := hb.m_mem b hb2
  rw [h, h2] at h1
  simp only [Option.some.injEq, http.muxEntry.mk.injEq] at h1
  exact h1.1.symm

theorem Built_Handle {rs : List Route} {mux mux1 : http.ServeMux} {r : Route}
    (hb : Built rs mux) (hk : mux.Handle r.Pattern r = .ok mux1) :
    Built (r :: rs) mux1 := by
  obtain ⟨h1, h2, hm, hes, hh⟩ := Handle_ok hk
  have hfresh : ∀ x ∈ rs, x.Pattern ≠ r.Pattern := by
    intro x hx heq
    have := hb.m_mem x hx
    rw [heq, h2] at this
    cases this
  refine ⟨?_, ?_, ?_, ?_, ?_, ?_⟩
  · intro p e he
    rw [hm] at he
    split_ifs at he with hp
    · simp only [Option.some.injEq] at he
      subst he
      exact ⟨hp.symm, List.mem_cons_self _ _, hp.symm⟩
    · obtain ⟨a, b, c⟩ := hb.m_some p e he
      exact ⟨a, List.mem_cons_of_mem _ b, c⟩
  · intro x hx
    rw [hm]
    rcases List.mem_cons.mp hx with rfl | hx
    · rw [if_pos rfl]
    · rw [if_neg (hfresh x hx)]
      exact hb.m_mem x hx
  · intro e
    rw [hes]
    split_ifs with hl
    · rw [mem_appendSorted, hb.es_mem, List.mem_cons]
      constructor
      · rintro (rfl | ⟨a, b, c⟩)
        · exact ⟨Or.inl rfl, rfl, hl⟩
        · exact ⟨Or.inr a, b, c⟩
      · rintro ⟨a | a, b, c⟩
        · left
          cases e
          simp only at a b
          subst a
          subst b
          rfl
        · exact Or.inr ⟨a, b, c⟩
    · rw [hb.es_mem, List.mem_cons]
      constructor
      · rintro ⟨a, b, c⟩
        exact ⟨Or.inr a, b, c⟩
      · rintro ⟨a | a, b, c⟩
        · exfalso
          rw [b, a] at c
          exact hl c
        · exact ⟨a, b, c⟩
  · rw [hes]
    split_ifs with hl
    · exact sorted_appendSorted _ _ hb.es_sorted
    · exact hb.es_sorted
  · rw [hh]
    split_ifs with hd
    · simp only [true_iff]
      exact ⟨r, List.mem_cons_self _ _, hd⟩
    · rw [hb.hosts]
      constructor
      · rintro ⟨x, hx, h⟩
        exact ⟨x, List.mem_cons_of_mem _ hx, h⟩
      · rintro ⟨x, hx, h⟩
        rcases List.mem_cons.mp hx with rfl | hx
        · exact absurd h hd
        · exact ⟨x, hx, h⟩
  · intro x hx
    rcases List.mem_cons.mp hx with rfl | hx
    · exact h1
    · exact hb.nonempty x hx

theorem Built_loop (routes : List Route) :
    ∀ {rs : List Route} {mux mux1 : http.ServeMux}, Built rs mux →
      NewServeMux.loop mux routes = .ok mux1 → Built (routes.reverse ++ rs) mux1 := by
  induction routes with
  | nil =>
    intro rs mux mux1 hb hk
    simp only [NewServeMux.loop, Except.ok.injEq] at hk
    subst hk
    simpa using hb
  | cons r rest ih =>
    intro rs mux mux1 hb hk
    unfold NewServeMux.loop at hk
    cases hH : mux.Handle r.Pattern r with
    | error e => rw [hH] at hk; cases hk
    | ok mux2 =>
      rw [hH] at hk
      have := ih (Built_Handle hb hH) hk
      simpa using this

theorem Built_NewServeMux {routes : List Route} {mux : http.ServeMux}
    (hk : NewServeMux routes = .ok mux) : Built routes mux := by
  have := Built_loop routes Built_nil hk
  exact Built_congr (by intro x; simp) this

theorem loop_ok_nodup (routes : List Route) :
    ∀ {rs : List Route} {mux mux1 : http.ServeMux}, Built rs mux →
      NewServeMux.loop mux routes = .ok mux1 →
      (routes.map Route.Pattern).Nodup ∧ ∀ r ∈ routes, r.Pattern ≠ [] := by
  induction routes with
  | nil => intro rs mux mux1 _ _; simp
  | cons r rest ih =>
    intro rs mux mux1 hb hk
    have hall := Built_loop (r :: rest) hb hk
    unfold NewServeMux.loop at hk
    cases hH : mux.Handle r.Pattern r with
    | error e => rw [hH] at hk; cases hk
    | ok mux2 =>
      rw [hH] at hk
      have hb2 := Built_Handle hb hH
      obtain ⟨hn, hne⟩ := ih hb2 hk
      have hfin := Built_loop rest hb2 hk
      refine ⟨?_, ?_⟩
      · rw [List.map_cons, List.nodup_cons]
        refine ⟨?_, hn⟩
        intro hmem
        obtain ⟨x, hx, hxp⟩ := List.mem_map.mp hmem
        -- `x` comes later in the list and has the pattern of `r`
        obtain ⟨h1, h2, -⟩ := Handle_ok hH
        have hloop : ∀ (l : List Route) (m0 m1 : http.ServeMux),
            NewServeMux.loop m0 l = .ok m1 → ∀ y ∈ l, m0.m y.Pattern = none := by
          intro l
          induction l with
          | nil => intro m0 m1 _ y hy; cases hy
          | cons z zs ihz =>
            intro m0 m1 hl y hy
            unfold NewServeMux.loop at hl
            cases hz : m0.Handle z.Pattern z with
            | error e => rw [hz] at hl; cases hl
            | ok m2 =>
              rw [hz] at hl
              obtain ⟨_, hz2, hzm, -⟩ := Handle_ok hz
              rcases List.mem_cons.mp hy with rfl | hy
              · exact hz2
              · have := ihz m2 m1 hl y hy
                rw [hzm] at this
                split_ifs at this with hc
                exact this
        have hx2 := hloop rest mux2 mux1 hk x hx
        have hr2 := hb2.m_mem r (List.mem_cons_self _ _)
        rw [hxp, hr2] at hx2
        cases hx2
      · intro y hy
        rcases List.mem_cons.mp hy with rfl | hy
        · exact (Handle_ok hH).1
        · exact hne y hy

theorem loop_succeeds (routes : List Route) :
    ∀ {rs : List Route} {mux : http.ServeMux}, Built rs mux →
      (routes.map Route.Pattern).Nodup → (∀ r ∈ routes, r.Pattern ≠ []) →
      (∀ r ∈ routes, ∀ x ∈ rs, x.Pattern ≠ r.Pattern) →
      ∃ mux1, NewServeMux.loop mux routes = .ok mux1 := by
  induction routes with
  | nil => intro rs mux _ _ _ _; exact ⟨mux, rfl⟩
  | cons r rest ih =>
    intro rs mux hb hn hne hfresh
    rw [List.map_cons, List.nodup_cons] at hn
    have hnone : mux.m r.Pattern = none :=
      hb.m_none (hfresh r (List.mem_cons_self _ _))
    obtain ⟨mux2, hH⟩ := Handle_succeeds r (hne r (List.mem_cons_self _ _)) hnone
    have hb2 := Built_Handle hb hH
    have := ih hb2 hn.2 (fun x hx => hne x (List.mem_cons_of_mem _ hx)) (by
      intro y hy x hx
      rcases List.mem_cons.mp hx with rfl | hx
      · intro heq
        exact hn.1 (List.mem_map.mpr ⟨y, hy, heq.symm⟩)
      · exact hfresh y (List.mem_cons_of_mem _ hy) x hx)
    obtain ⟨mux1, h1⟩ := this
    refine ⟨mux1, ?_⟩
    unfold NewServeMux.loop
    rw [hH]
    exact h1

theorem NewServeMux_succeeds {routes : List Route}
    (hn : (routes.map Route.Pattern).Nodup) (hne : ∀ r ∈ routes, r.Pattern ≠ []) :
    ∃ mux, NewServeMux routes = .ok mux :=
  loop_succeeds routes Built_nil hn hne (by intro r _ x hx; cases hx)

/-! ## Dispatch -/

theorem find_sorted (P : http.muxEntry → Bool) (es : List http.muxEntry)
    (hs : es.Pairwise (fun a b => b.pattern.length ≤ a.pattern.length))
    {e : http.muxEntry} (h : es.find? P = some e) :
    ∀ x ∈ es, P x = true → x.pattern.length ≤ e.pattern.length := by
  induction es with
  | nil => cases h
  | cons y ys ih =>
    rw [List.pairwise_cons] at hs
    rw [List.find?_cons] at h
    intro x hx hpx
    cases hy : P y with
    | true =>
      rw [hy] at h
      simp only [Option.some.injEq] at h
      subst h
      rcases List.mem_cons.mp hx with rfl | hx
      · exact Nat.le_refl _
      · exact hs.1 x hx
    | false =>
      rw [hy] at h
      rcases List.mem_cons.mp hx with rfl | hx
      · rw [hy] at hpx; cases hpx
      · exact ih hs.2 h x hx hpx

theorem Built.m_eq {rs : List Route} {m1 m2 : http.ServeMux}
    (h1 : Built rs m1) (h2 : Built rs m2) (p : GoString) : m1.m p = m2.m p := by
  have key : ∀ (a b : http.ServeMux), Built rs a → Built rs b →
      ∀ e, a.m p = some e → b.m p = some e := by
    intro a b ha hb e he
    obtain ⟨x1, x2, x3⟩ := ha.m_some p e he
    have := hb.m_mem e.h x2
    rw [x3] at this
    rw [this]
    cases e
    simp only at x1
    subst x1
    rfl
  cases ha : m1.m p with
  | some e => exact (key m1 m2 h1 h2 e ha).symm
  | none =>
    cases hb : m2.m p with
    | none => rfl
    | some e =>
      have := key m2 m1 h2 h1 e hb
      rw [ha] at this
      cases this

theorem Built.hosts_eq {rs : List Route} {m1 m2 : http.ServeMux}
    (h1 : Built rs m1) (h2 : Built rs m2) : m1.hosts = m2.hosts := by
  have := h1.hosts.trans h2.hosts.symm
  cases ha : m1.hosts <;> cases hb : m2.hosts <;> simp_all

theorem Built.es_inj {rs : List Route} {mux : http.ServeMux} (hb : Built rs mux)
    {a b : http.muxEntry} (ha : a ∈ mux.es) (hb2 : b ∈ mux.es)
    (h : a.pattern = b.pattern) : a = b := by
  obtain ⟨a1, a2, -⟩ := (hb.es_mem a).mp ha
  obtain ⟨b1, b2, -⟩ := (hb.es_mem b).mp hb2
  have hr : a.h = b.h := hb.inj a1 b1 (by rw [← a2, ← b2, h])
  cases a
  cases b
  simp only at hr h
  subst hr
  subst h
  rfl

theorem Built.find_eq {rs : List Route} {m1 m2 : http.ServeMux}
    (h1 : Built rs m1) (h2 : Built rs m2) (path : GoString) :
    m1.es.find? (fun e => e.pattern.isPrefixOf path)
      = m2.es.find? (fun e => e.pattern.isPrefixOf path) := by
  have hmem : ∀ e, e ∈ m1.es ↔ e ∈ m2.es := fun e => by rw [h1.es_mem, h2.es_mem]
  cases ha : m1.es.find? (fun e => e.pattern.isPrefixOf path) with
  | none =>
    rw [List.find?_eq_none] at ha
    symm
    rw [List.find?_eq_none]
    intro x hx
    exact ha x ((hmem x).mpr hx)
  | some e =>
    have he_mem := List.mem_of_find?_eq_some ha
    have he_P : e.pattern.isPrefixOf path = true :=
      @List.find?_some _ (fun e => e.pattern.isPrefixOf path) e _ ha
    cases hb : m2.es.find? (fun e => e.pattern.isPrefixOf path) with
    | none =>
      rw [List.find?_eq_none] at hb
      exact absurd he_P (hb e ((hmem e).mp he_mem))
    | some e2 =>
      have he2_mem := List.mem_of_find?_eq_some hb
      have he2_P : e2.pattern.isPrefixOf path = true :=
        @List.find?_some _ (fun e => e.pattern.isPrefixOf path) e2 _ hb
      have l1 := find_sorted _ _ h1.es_sorted ha e2 ((hmem e2).mpr he2_mem) he2_P
      have l2 := find_sorted _ _ h2.es_sorted hb e ((hmem e).mp he_mem) he_P
      have p1 : e.pattern <+: path := List.isPrefixOf_iff_prefix.mp he_P
      have p2 : e2.pattern <+: path := List.isPrefixOf_iff_prefix.mp he2_P
      have hp : e.pattern = e2.pattern :=
        (List.prefix_of_prefix_length_le p1 p2 l2).eq_of_length_le l1
      rw [h1.es_inj he_mem ((hmem e2).mpr he2_mem) hp]

theorem Built.match_eq {rs : List Route} {m1 m2 : http.ServeMux}
    (h1 : Built rs m1) (h2 : Built rs m2) (path : GoString) :
    m1.match_ path = m2.match_ path := by
  unfold http.ServeMux.match_
  rw [h1.m_eq h2 path, h1.find_eq h2 path]

theorem Built.Handler_eq {rs : List Route} {m1 m2 : http.ServeMux}
    (h1 : Built rs m1) (h2 : Built rs m2) (r : Request) :
    m1.Handler r = m2.Handler r := by
  have hh : ∀ host path, m1.handler host path = m2.handler host path := by
    intro host path
    unfold http.ServeMux.handler
    rw [h1.hosts_eq h2, h1.match_eq h2, h1.match_eq h2]
  have hr : ∀ host path u, m1.redirectToPathSlash host path u
      = m2.redirectToPathSlash host path u := by
    intro host path u
    unfold http.ServeMux.redirectToPathSlash http.ServeMux.shouldRedirectRLocked
    rw [h1.m_eq h2, h1.m_eq h2, h1.m_eq h2, h1.m_eq h2]
  unfold http.ServeMux.Handler
  simp only [hh, hr]

theorem Built.ServeHTTP_eq {rs : List Route} {m1 m2 : http.ServeMux}
    (h1 : Built rs m1) (h2 : Built rs m2) (w : ResponseWriter) (r : Request) :
    m1.ServeHTTP w r = m2.ServeHTTP w r := by
  unfold http.ServeMux.ServeHTTP
  rw [h1.Handler_eq h2]

theorem Built.hosts_false {rs : List Route} {mux : http.ServeMux} (hb : Built rs mux)
    (hroot : ∀ x ∈ rs, x.Pattern.head? = some '/') : mux.hosts = false := by
  cases hh : mux.hosts with
  | false => rfl
  | true =>
    obtain ⟨x, hx, h⟩ := hb.hosts.mp hh
    exact absurd (hroot x hx) h

theorem Built.Handler_exact {rs : List Route} {mux : http.ServeMux} (hb : Built rs mux)
    (hroot : ∀ x ∈ rs, x.Pattern.head? = some '/') {r : Route} (hr : r ∈ rs)
    (hc : http.cleanPath r.Pattern = r.Pattern) (req : Request)
    (hp : req.Path = r.Pattern) :
    mux.Handler req = (http.Handler.route r, r.Pattern) := by
  have hm := hb.m_mem r hr
  have hred : ∀ host u, mux.redirectToPathSlash host r.Pattern u = none := by
    intro host u
    unfold http.ServeMux.redirectToPathSlash http.ServeMux.shouldRedirectRLocked
    rw [hm]
    simp
  have hh : ∀ host, mux.handler host r.Pattern = (http.Handler.route r, r.Pattern) := by
    intro host
    unfold http.ServeMux.handler http.ServeMux.match_
    rw [hb.hosts_false hroot, hm]
    simp
  unfold http.ServeMux.Handler
  rw [hp, hc]
  simp only [hred, hh]
  split_ifs <;> first | rfl | (exfalso; simp_all)

theorem Built.ServeHTTP_exact {rs : List Route} {mux : http.ServeMux} (hb : Built rs mux)
    (hroot : ∀ x ∈ rs, x.Pattern.head? = some '/') {r : Route} (hr : r ∈ rs)
    (hc : http.cleanPath r.Pattern = r.Pattern) (req : Request)
    (hp : req.Path = r.Pattern) (w : ResponseWriter) :
    mux.ServeHTTP w req = r.ServeHTTP w req := by
  unfold http.ServeMux.ServeHTTP
  have hstar : http.isAsteriskForm req = false := by
    unfold http.isAsteriskForm
    have := hroot r hr
    rw [hp]
    cases hpat : r.Pattern with
    | nil => rw [hpat] at this; cases this
    | cons c cs =>
      rw [hpat] at this
      simp only [List.head?_cons, Option.some.injEq] at this
      subst this
      simp
  rw [hstar, hb.Handler_exact hroot hr hc req hp]
  simp [http.Handler.ServeHTTP]

theorem patternMatches_false {p c : GoString} (h : patternMatches p c = false) :
    p ≠ c ∧ (p.getLast? = some '/' → ¬ p <+: c ++ ['/']) := by
  unfold patternMatches at h
  simp only [Bool.or_eq_false_iff, Bool.and_eq_false_iff, beq_eq_false_iff_ne, ne_eq] at h
  refine ⟨h.1, fun hl hp => ?_⟩
  rcases h.2 with h2 | h2
  · exact h2 hl
  · rw [List.isPrefixOf_iff_prefix.mpr hp] at h2
    cases h2

theorem Built.match_none {rs : List Route} {mux : http.ServeMux} (hb : Built rs mux)
    {c : GoString} (hn : ∀ x ∈ rs, patternMatches x.Pattern c = false) :
    mux.match_ c = none := by
  unfold http.ServeMux.match_
  rw [hb.m_none (fun x hx => (patternMatches_false (hn x hx)).1)]
  simp only
  rw [List.find?_eq_none]
  intro e he hp
  obtain ⟨e1, e2, e3⟩ := (hb.es_mem e).mp he
  have hpre : e.pattern <+: c := List.isPrefixOf_iff_prefix.mp hp
  have := (patternMatches_false (hn e.h e1)).2
  rw [← e2] at this
  exact this e3 (hpre.trans (List.prefix_append c _))

theorem Built.handler_notFound {rs : List Route} {mux : http.ServeMux} (hb : Built rs mux)
    {host path : GoString} (h1 : ∀ x ∈ rs, patternMatches x.Pattern path = false)
    (h2 : ∀ x ∈ rs, patternMatches x.Pattern (host ++ path) = false) :
    mux.handler host path = (http.Handler.notFound, []) := by
  unfold http.ServeMux.handler
  rw [hb.match_none h1, hb.match_none h2]
  cases mux.hosts <;> rfl

theorem Built.no_redirect {rs : List Route} {mux : http.ServeMux} (hb : Built rs mux)
    {host path : GoString} (h1 : ∀ x ∈ rs, patternMatches x.Pattern path = false)
    (h2 : ∀ x ∈ rs, patternMatches x.Pattern (host ++ path) = false) (u : GoString) :
    mux.redirectToPathSlash host path u = none := by
  have n1 : mux.m path = none := hb.m_none (fun x hx => (patternMatches_false (h1 x hx)).1)
  have n2 : mux.m (host ++ path) = none :=
    hb.m_none (fun x hx => (patternMatches_false (h2 x hx)).1)
  have slash : ∀ c, (∀ x ∈ rs, patternMatches x.Pattern c = false) →
      mux.m (c ++ ['/']) = none := by
    intro c hc
    apply hb.m_none
    intro x hx heq
    have := (patternMatches_false (hc x hx)).2
    rw [heq] at this
    exact this (by simp) (List.prefix_refl _)
  unfold http.ServeMux.redirectToPathSlash http.ServeMux.shouldRedirectRLocked
  rw [n1, n2, slash path h1, slash (host ++ path) h2]
  simp

theorem Built.Handler_notFound {rs : List Route} {mux : http.ServeMux} (hb : Built rs mux)
    (req : Request) (hc : canonical req)
    (hno : ∀ x ∈ rs, ∀ c ∈ candidates req, patternMatches x.Pattern c = false) :
    mux.Handler req = (http.Handler.notFound, []) := by
  have c1 : ∀ x ∈ rs, patternMatches x.Pattern req.Path = false :=
    fun x hx => hno x hx _ (by simp [candidates])
  have c2 : ∀ x ∈ rs, patternMatches x.Pattern
      (http.stripHostPort req.Host ++ req.Path) = false :=
    fun x hx => hno x hx _ (by simp [candidates])
  have c3 : ∀ x ∈ rs, patternMatches x.Pattern (req.Host ++ req.Path) = false :=
    fun x hx => hno x hx _ (by simp [candidates])
  have c4 : ∀ x ∈ rs, patternMatches x.Pattern (req.URLHost ++ req.Path) = false :=
    fun x hx => hno x hx _ (by simp [candidates])
  unfold http.ServeMux.Handler
  by_cases hm : req.Method = "CONNECT".toList
  · rw [if_pos hm, hb.no_redirect c1 c4]
    exact hb.handler_notFound c1 c3
  · rw [if_neg hm]
    have hcl : http.cleanPath req.Path = req.Path := by
      rcases hc.2 with h | h
      · exact absurd h hm
      · exact h
    simp only [hcl, hb.no_redirect c1 c2, ne_eq, not_true_eq_false, if_false]
    exact hb.handler_notFound c1 c2

theorem loop_error (routes : List Route) :
    ∀ {rs : List Route} {mux : http.ServeMux} {e : http.Panic}, Built rs mux →
      NewServeMux.loop mux routes = .error e →
      (e = .invalidPattern ∧ ∃ r ∈ routes, r.Pattern = []) ∨
      (∃ l1 r l2 x, routes = l1 ++ r :: l2 ∧ (x ∈ rs ∨ x ∈ l1) ∧ x.Pattern = r.Pattern ∧
        e = .multipleRegistrations r.Pattern) := by
  induction routes with
  | nil => intro rs mux e _ hk; cases hk
  | cons r rest ih =>
    intro rs mux e hb hk
    unfold NewServeMux.loop at hk
    cases hH : mux.Handle r.Pattern r with
    | error e2 =>
      rw [hH] at hk
      simp only [Except.error.injEq] at hk
      subst hk
      rcases Handle_error hH with ⟨h1, h2⟩ | ⟨_, h2, h3⟩
      · exact Or.inl ⟨h2, r, List.mem_cons_self _ _, h1⟩
      · right
        cases hm : mux.m r.Pattern with
        | none => rw [hm] at h2; cases h2
        | some e0 =>
          obtain ⟨_, a, b⟩ := hb.m_some _ _ hm
          exact ⟨[], r, rest, e0.h, rfl, Or.inl a, b, h3⟩
    | ok mux2 =>
      rw [hH] at hk
      rcases ih (Built_Handle hb hH) hk with ⟨h1, x, hx, hxe⟩ | ⟨l1, r2, l2, x, h1, h2, h3, h4⟩
      · exact Or.inl ⟨h1, x, List.mem_cons_of_mem _ hx, hxe⟩
      · right
        refine ⟨r :: l1, r2, l2, x, by rw [h1]; rfl, ?_, h3, h4⟩
        rcases h2 with h2 | h2
        · rcases List.mem_cons.mp h2 with rfl | h2
          · exact Or.inr (List.mem_cons_self _ _)
          · exact Or.inl h2
        · exact Or.inr (List.mem_cons_of_mem _ h2)

theorem NewServeMux_ok_nodup {routes : List Route} {mux : http.ServeMux}
    (hk : NewServeMux routes = .ok mux) :
    (routes.map Route.Pattern).Nodup ∧ ∀ r ∈ routes, r.Pattern ≠ [] :=
  loop_ok_nodup routes Built_nil hk

/-! ## The claims about the dispatch table -/

theorem literalPattern_spec {p : GoString} (h : literalPattern p = true) :
    p.head? = some '/' ∧ http.cleanPath p = p := by
  unfold literalPattern at h
  simp only [Bool.and_eq_true, beq_iff_eq] at h
  exact ⟨h.1.1, h.1.2⟩

theorem literal_nonempty {routes : List Route}
    (hlit : ∀ r ∈ routes, literalPattern r.Pattern = true) :
    ∀ r ∈ routes, r.Pattern ≠ [] := by
  intro r hr h
  have := (literalPattern_spec (hlit r hr)).1
  rw [h] at this
  cases this

/-- C1 (as amended): for every sequence of Routes whose patterns are pairwise
distinct literal patterns (rooted paths in clean form, free of the characters
of the mux's pattern language), `NewServeMux` succeeds, and for every route `r`
of the sequence a request whose path equals `r.Pattern()` is resolved by the
resulting mux to exactly `r`, and serving it is running `r.ServeHTTP`. -/
theorem NewServeMux_dispatch (routes : List Route)
    (hnd : (routes.map Route.Pattern).Nodup)
    (hlit : ∀ r ∈ routes, literalPattern r.Pattern = true) :
    ∃ mux, NewServeMux routes = .ok mux ∧
      ∀ r ∈ routes, ∀ req : Request, req.Path = r.Pattern →
        mux.Handler req = (http.Handler.route r, r.Pattern) ∧
        ∀ w, mux.ServeHTTP w req = r.ServeHTTP w req := by
  have hroot : ∀ r ∈ routes, r.Pattern.head? = some '/' :=
    fun r hr => (literalPattern_spec (hlit r hr)).1
  obtain ⟨mux, hk⟩ := NewServeMux_succeeds hnd (literal_nonempty hlit)
  have hb := Built_NewServeMux hk
  exact ⟨mux, hk, fun r hr req hp =>
    ⟨hb.Handler_exact hroot hr (literalPattern_spec (hlit r hr)).2 req hp,
     hb.ServeHTTP_exact hroot hr (literalPattern_spec (hlit r hr)).2 req hp⟩⟩

theorem NewServeMux_dispatch_witness :
    ∃ mux, NewServeMux [NewEchoHandler, NewHelloHandler] = .ok mux ∧
      mux.Handler (request "POST".toList "/hello".toList "world".toList)
        = (http.Handler.route NewHelloHandler, "/hello".toList) ∧
      mux.ServeHTTP http.newResponse (request "POST".toList "/hello".toList "world".toList)
        = (⟨[], some 200, "Hello world".toList, false⟩, []) := by
  obtain ⟨mux, hk, h⟩ :=
    NewServeMux_dispatch [NewEchoHandler, NewHelloHandler] (by decide) (by decide)
  have h2 := h NewHelloHandler (by simp)
    (request "POST".toList "/hello".toList "world".toList) rfl
  refine ⟨mux, hk, h2.1, ?_⟩
  rw [h2.2]
  decide

/-- C1 fails as stated: the single route with pattern `//echo` is a non-empty
sequence with pairwise distinct patterns, `NewServeMux` accepts it, and a GET
request whose path equals the pattern is answered by a redirect (307) to
`/echo`, with the HTML note of `http.Redirect` as its body: the route's
handler, which would write `hi` under status 200, is not invoked. -/
theorem NewServeMux_dispatch_unclean_pattern :
    [stubRoute "//echo".toList "hi".toList] ≠ [] ∧
    ([stubRoute "//echo".toList "hi".toList].map Route.Pattern).Nodup ∧
    (request "GET".toList "//echo".toList []).Path
      = (stubRoute "//echo".toList "hi".toList).Pattern ∧
    serve [stubRoute "//echo".toList "hi".toList] (request "GET".toList "//echo".toList [])
      = some (⟨[("Content-Type".toList, "text/html; charset=utf-8".toList),
                ("Location".toList, "/echo".toList)],
              some 307, "<a href=\"/echo\">Temporary Redirect</a>.\n\n".toList, false⟩, []) ∧
    (stubRoute "//echo".toList "hi".toList).ServeHTTP http.newResponse
        (request "GET".toList "//echo".toList [])
      = (⟨[], some 200, "hi".toList, false⟩, []) := by
  refine ⟨by simp, by simp, rfl, by decide, by decide⟩

/-- C2: when two routes at different positions of the sequence declare the same
pattern, `NewServeMux` fails (it panics inside `mux.Handle`) and produces no
mux, so the later registration never overrides the earlier one; and when no
pattern is empty the panic is the one for multiple registrations, raised for a
route whose pattern an earlier route of the sequence has registered. -/
theorem NewServeMux_duplicate (routes : List Route) (i j : Nat) (a b : Route)
    (hij : i < j) (ha : routes[i]? = some a) (hb : routes[j]? = some b)
    (heq : a.Pattern = b.Pattern) :
    (∃ e, NewServeMux routes = .error e) ∧
    ((∀ r ∈ routes, r.Pattern ≠ []) →
      ∃ l1 r l2 x, routes = l1 ++ r :: l2 ∧ x ∈ l1 ∧ x.Pattern = r.Pattern ∧
        NewServeMux routes = .error (.multipleRegistrations r.Pattern)) := by
  have hdup : ¬ (routes.map Route.Pattern).Nodup := by
    intro hn
    rw [List.nodup_iff_getElem?_ne_getElem?] at hn
    have hj : j < routes.length := by
      rcases List.getElem?_eq_some.mp hb with ⟨h, -⟩
      exact h
    apply hn i j hij (by simpa using hj)
    simp [ha, hb, heq]
  cases hk : NewServeMux routes with
  | ok mux => exact absurd (NewServeMux_ok_nodup hk).1 hdup
  | error e =>
    refine ⟨⟨e, rfl⟩, fun hne => ?_⟩
    rcases loop_error routes Built_nil hk with ⟨-, r, hr, hre⟩ | ⟨l1, r, l2, x, h1, h2, h3, h4⟩
    · exact absurd hre (hne r hr)
    · refine ⟨l1, r, l2, x, h1, ?_, h3, by rw [h4]⟩
      rcases h2 with h2 | h2
      · cases h2
      · exact h2

theorem NewServeMux_duplicate_witness :
    ∃ e, NewServeMux [NewEchoHandler, NewHelloHandler, NewEchoHandler] = .error e :=
  (NewServeMux_duplicate [NewEchoHandler, NewHelloHandler, NewEchoHandler] 0 2
    NewEchoHandler NewEchoHandler (by decide) rfl rfl rfl).1

theorem patternMatches_host {p host path : GoString} (hp : p.head? = some '/')
    (hh : '/' ∉ host) (hn : patternMatches p path = false) :
    patternMatches p (host ++ path) = false := by
  cases host with
  | nil => simpa using hn
  | cons c cs =>
    have hc : c ≠ '/' := fun h => hh (by rw [h]; exact List.mem_cons_self _ _)
    cases p with
    | nil => cases hp
    | cons d ds =>
      simp only [List.head?_cons, Option.some.injEq] at hp
      subst hp
      unfold patternMatches
      simp only [Bool.or_eq_false_iff, Bool.and_eq_false_iff, beq_eq_false_iff_ne, ne_eq]
      refine ⟨?_, Or.inr ?_⟩
      · intro h
        simp only [List.cons_append, List.cons.injEq] at h
        exact hc h.1.symm
      · cases hx : List.isPrefixOf ('/' :: ds) (c :: cs ++ path ++ ['/']) with
        | false => rfl
        | true =>
          exfalso
          have := List.isPrefixOf_iff_prefix.mp hx
          simp only [List.cons_append, List.cons_prefix_cons] at this
          exact hc this.1.symm

theorem SplitHostPort_mem {h host port : GoString}
    (hs : net.SplitHostPort h = some (host, port)) : ∀ c ∈ host, c ∈ h := by
  unfold net.SplitHostPort at hs
  simp only at hs
  split_ifs at hs <;>
    simp only [Option.some.injEq, Prod.mk.injEq] at hs <;>
    obtain ⟨rfl, -⟩ := hs <;>
    intro c hc
  · exact List.mem_of_mem_take (List.mem_of_mem_drop hc)
  · exact List.mem_of_mem_take hc

theorem stripHostPort_noslash {h : GoString} (hh : '/' ∉ h) :
    '/' ∉ http.stripHostPort h := by
  unfold http.stripHostPort
  by_cases h1 : ':' ∈ h
  · rw [if_neg (not_not.mpr h1)]
    cases hs : net.SplitHostPort h with
    | none => exact hh
    | some hp =>
      obtain ⟨host, port⟩ := hp
      exact fun hc => hh (SplitHostPort_mem hs _ hc)
  · rw [if_pos h1]
    exact hh

/-- C3 (as amended): for every sequence of Routes whose patterns are pairwise
distinct literal patterns (of any length, the empty sequence included),
`NewServeMux` succeeds, and for every request with a well-formed host (no
slash in it) whose path is in clean form (`cleanPath` leaves it unchanged): if
no pattern is equal to the path, and no pattern ending in a slash is a prefix of
the path followed by a slash, then the mux resolves the request to the
not-found handler, and serving it is `http.Error(w, "404 page not found", 404)`:
status 404 on a fresh writer, no route handler invoked.  (A pattern ending in a
slash names a subtree: it matches every path it is a prefix of, and the path
that is the pattern without its last slash is redirected to it.) -/
theorem dispatch_not_found (routes : List Route)
    (hnd : (routes.map Route.Pattern).Nodup)
    (hlit : ∀ r ∈ routes, literalPattern r.Pattern = true) :
    ∃ mux, NewServeMux routes = .ok mux ∧
      ∀ req : Request, '/' ∉ req.Host → '/' ∉ req.URLHost →
        http.cleanPath req.Path = req.Path →
        (∀ r ∈ routes, patternMatches r.Pattern req.Path = false) →
        mux.Handler req = (http.Handler.notFound, []) ∧
        (∀ w, mux.ServeHTTP w req
          = (http.Error w "404 page not found".toList http.StatusNotFound, [])) ∧
        (mux.ServeHTTP http.newResponse req).1.status = some 404 := by
  obtain ⟨mux, hk⟩ := NewServeMux_succeeds hnd (literal_nonempty hlit)
  refine ⟨mux, hk, ?_⟩
  intro req hh1 hh2 hcl hno
  have hb := Built_NewServeMux hk
  have hstar : req.Path ≠ ['*'] := by
    intro h
    rw [h] at hcl
    revert hcl
    decide
  have hc : canonical req := ⟨hstar, Or.inr hcl⟩
  have hcand : ∀ r ∈ routes, ∀ c ∈ candidates req, patternMatches r.Pattern c = false := by
    intro r hr c hc
    have hp := (literalPattern_spec (hlit r hr)).1
    simp only [candidates, List.mem_cons, List.mem_singleton, List.not_mem_nil,
      or_false] at hc
    rcases hc with rfl | rfl | rfl | rfl
    · exact hno r hr
    · exact patternMatches_host hp (stripHostPort_noslash hh1) (hno r hr)
    · exact patternMatches_host hp hh1 (hno r hr)
    · exact patternMatches_host hp hh2 (hno r hr)
  have h1 := hb.Handler_notFound req hc hcand
  have hast : http.isAsteriskForm req = false := by
    unfold http.isAsteriskForm
    simpa using hstar
  have h2 : ∀ w, mux.ServeHTTP w req
      = (http.Error w "404 page not found".toList http.StatusNotFound, []) := by
    intro w
    unfold http.ServeMux.ServeHTTP
    rw [hast, h1]
    rfl
  refine ⟨h1, h2, ?_⟩
  rw [h2]
  rfl

theorem dispatch_not_found_witness :
    ∃ mux, NewServeMux [NewEchoHandler, stubRoute "/tree/".toList "leaf".toList] = .ok mux ∧
      mux.ServeHTTP http.newResponse (request "GET".toList "/missing".toList [])
        = (http.Error http.newResponse "404 page not found".toList http.StatusNotFound,
            []) := by
  obtain ⟨mux, hk, h⟩ :=
    dispatch_not_found [NewEchoHandler, stubRoute "/tree/".toList "leaf".toList]
      (by decide) (by decide)
  exact ⟨mux, hk, (h (request "GET".toList "/missing".toList []) (by decide) (by decide)
    (by decide) (by decide)).2.1 _⟩

/-- C3 fails as stated: with the single route of pattern `/`, the path
`/missing` is equal to no pattern, yet the request is dispatched to the
route, whose handler answers `root` with status 200: a pattern ending in a
slash matches by prefix. -/
theorem dispatch_prefix_match :
    (request "GET".toList "/missing".toList []).Path
      ∉ [stubRoute "/".toList "root".toList].map Route.Pattern ∧
    serve [stubRoute "/".toList "root".toList] (request "GET".toList "/missing".toList [])
      = some (⟨[], some 200, "root".toList, false⟩, []) := by
  refine ⟨by decide, by decide⟩

/-- C9 (as amended): compilation does not depend on the order of the routes.
For every sequence of Routes whose patterns are pairwise distinct literal
patterns and every permutation of it, `NewServeMux` accepts both, and the two
muxes resolve every request to the same handler under the same pattern (a
route, a redirect or not-found alike) and answer it alike. -/
theorem NewServeMux_order_independent (routes perm : List Route)
    (hp : routes.Perm perm) (hnd : (routes.map Route.Pattern).Nodup)
    (hlit : ∀ r ∈ routes, literalPattern r.Pattern = true) :
    ∃ m1 m2, NewServeMux routes = .ok m1 ∧ NewServeMux perm = .ok m2 ∧
      ∀ req : Request, m1.Handler req = m2.Handler req ∧
        ∀ w, m1.ServeHTTP w req = m2.ServeHTTP w req := by
  have hnd2 : (perm.map Route.Pattern).Nodup := hnd.perm (hp.map _)
  have hne := literal_nonempty hlit
  obtain ⟨m1, h1⟩ := NewServeMux_succeeds hnd hne
  obtain ⟨m2, h2⟩ := NewServeMux_succeeds hnd2
    (fun r hr => hne r (hp.mem_iff.mpr hr))
  have b1 := Built_NewServeMux h1
  have b2 : Built routes m2 :=
    Built_congr (fun x => hp.mem_iff.symm) (Built_NewServeMux h2)
  exact ⟨m1, m2, h1, h2, fun req => ⟨b1.Handler_eq b2 req, fun w => b1.ServeHTTP_eq b2 w req⟩⟩

theorem NewServeMux_order_independent_witness :
    ∃ m1 m2,
      NewServeMux [NewEchoHandler, stubRoute "/".toList "root".toList, NewHelloHandler]
        = .ok m1 ∧
      NewServeMux [stubRoute "/".toList "root".toList, NewEchoHandler, NewHelloHandler]
        = .ok m2 ∧
      ∀ req : Request, m1.Handler req = m2.Handler req ∧
        ∀ w, m1.ServeHTTP w req = m2.ServeHTTP w req :=
  NewServeMux_order_independent _ _ (List.Perm.swap _ _ _) (by decide) (by decide)

/-- C9 fails as stated: the routes with patterns `` (empty) and `/echo` have
pairwise distinct patterns, and `NewServeMux` panics with `http: invalid
pattern` on the sequence and on its permutation alike, so neither yields a
dispatch table. -/
theorem NewServeMux_empty_pattern :
    ([stubRoute [] "x".toList, NewEchoHandler].map Route.Pattern).Nodup ∧
    NewServeMux [stubRoute [] "x".toList, NewEchoHandler] = .error .invalidPattern ∧
    NewServeMux [NewEchoHandler, stubRoute [] "x".toList] = .error .invalidPattern := by
  refine ⟨by decide, rfl, rfl⟩

/-! ## The handlers -/

theorem Error_status (w : ResponseWriter) (msg : GoString) (code : Nat)
    (hw : w.status = none) : (http.Error w msg code).status = some code := by
  simp [http.Error, http.Write, http.WriteHeader, http.headerSet, http.headerDel, hw]
  split_ifs <;> rfl

/-- For every request whose body cannot be read and every writer whose header
is not written yet, both handlers log the failure once and return.
`HelloHandler` answers with status 500; `EchoHandler` leaves the writer as the
copy left it (untouched when no byte was read) and writes no status, so the
response goes out under 200. -/
theorem handlers_unreadable_body (w : ResponseWriter) (r : Request) (e : GoString)
    (hr : r.Body.err = some e) (hw : w.status = none) :
    (HelloHandler.ServeHTTP w r).1.status = some http.StatusInternalServerError ∧
    (HelloHandler.ServeHTTP w r).2 = [⟨Level.error, "Error serving HTTP request".toList⟩] ∧
    EchoHandler.ServeHTTP w r
      = (if r.Body.data = [] then w else (http.Write w r.Body.data).1,
          [⟨Level.warn, "Error serving HTTP request:".toList⟩]) ∧
    http.statusCode (EchoHandler.ServeHTTP w r).1 = http.StatusOK := by
  have echo : ∀ (br : Bool) (hdr : List (GoString × GoString)) (bd data : GoString),
      EchoHandler.ServeHTTP ⟨hdr, none, bd, br⟩ ⟨r.Method, r.Host, r.URLHost, r.Path,
          r.RawQuery, r.Proto11, ⟨data, some e⟩⟩
        = (if data = [] then ⟨hdr, none, bd, br⟩
            else (http.Write ⟨hdr, none, bd, br⟩ data).1,
           [⟨Level.warn, "Error serving HTTP request:".toList⟩]) ∧
      http.statusCode (EchoHandler.ServeHTTP ⟨hdr, none, bd, br⟩ ⟨r.Method, r.Host,
          r.URLHost, r.Path, r.RawQuery, r.Proto11, ⟨data, some e⟩⟩).1 = http.StatusOK := by
    intro br hdr bd data
    by_cases hd : data = []
    · cases br <;>
        simp [EchoHandler.ServeHTTP, io.Copy, hd, http.statusCode]
    · cases br <;>
        simp [EchoHandler.ServeHTTP, io.Copy, hd, http.statusCode, http.Write,
          http.WriteHeader]
  obtain ⟨hdr, st, bd, br⟩ := w
  simp only at hw
  subst hw
  obtain ⟨m, h, uh, pa, q, pr, ⟨data, err⟩⟩ := r
  simp only at hr
  subst hr
  refine ⟨?_, ?_, (echo br hdr bd data).1, (echo br hdr bd data).2⟩
  · unfold HelloHandler.ServeHTTP io.ReadAll
    exact Error_status _ _ _ rfl
  · unfold HelloHandler.ServeHTTP io.ReadAll
    rfl

/-- C8: the code at the failing input.  On a request to `/echo` whose body
breaks before a byte is read, `EchoHandler.ServeHTTP` returns normally with a
warning logged and the writer untouched, so the response carries the success
status 200 and not a failure status; on the same body `HelloHandler.ServeHTTP`
answers with status 500, as the claim asks of both. -/
theorem EchoHandler_unreadable_body :
    EchoHandler.ServeHTTP http.newResponse
      { request "POST".toList "/echo".toList [] with
        Body := ⟨[], some "unexpected EOF".toList⟩ }
      = (http.newResponse, [⟨Level.warn, "Error serving HTTP request:".toList⟩]) ∧
    http.statusCode (EchoHandler.ServeHTTP http.newResponse
      { request "POST".toList "/echo".toList [] with
        Body := ⟨[], some "unexpected EOF".toList⟩ }).1 = 200 ∧
    http.statusCode (HelloHandler.ServeHTTP http.newResponse
      { request "POST".toList "/hello".toList [] with
        Body := ⟨[], some "unexpected EOF".toList⟩ }).1 = 500 ∧
    serve [NewEchoHandler, NewHelloHandler]
      { request "POST".toList "/echo".toList [] with
        Body := ⟨"ab".toList, some "unexpected EOF".toList⟩ }
      = some (⟨[], some 200, "ab".toList, false⟩,
          [⟨Level.warn, "Error serving HTTP request:".toList⟩]) := by
  refine ⟨by decide, by decide, by decide, by decide⟩

theorem patternMatches_exact_only {p c : GoString} (hl : p.getLast? ≠ some '/')
    (hne : p ≠ c) : patternMatches p c = false := by
  unfold patternMatches
  simp only [Bool.or_eq_false_iff, Bool.and_eq_false_iff, beq_eq_false_iff_ne, ne_eq]
  exact ⟨hne, Or.inl hl⟩

theorem missing_no_match (routes : List Route)
    (hr : routes = [NewEchoHandler, NewHelloHandler] ∨
      routes = [NewHelloHandler, NewEchoHandler])
    (r : Request) (hp : r.Path = "/missing".toList) :
    ∀ x ∈ routes, ∀ c ∈ candidates r, patternMatches x.Pattern c = false := by
  have key : ∀ x ∈ routes, ∀ host : GoString,
      patternMatches x.Pattern (host ++ "/missing".toList) = false := by
    intro x hx host
    have hx2 : x = NewEchoHandler ∨ x = NewHelloHandler := by
      rcases hr with rfl | rfl <;> simp at hx <;> tauto
    rcases hx2 with rfl | rfl
    · apply patternMatches_exact_only (by decide)
      intro h
      have := congrArg List.length h
      simp [NewEchoHandler, EchoHandler.Pattern] at this
    · apply patternMatches_exact_only (by decide)
      intro h
      have := congrArg List.length h
      simp [NewHelloHandler, HelloHandler.Pattern] at this
  intro x hx c hc
  simp only [candidates, List.mem_cons, List.mem_singleton, List.not_mem_nil, or_false] at hc
  rw [hp] at hc
  rcases hc with rfl | rfl | rfl | rfl
  · exact key x hx []
  · exact key x hx _
  · exact key x hx _
  · exact key x hx _

/-- C10: in the table compiled from the `EchoHandler` and `HelloHandler` routes
(in either order), for every request whose body `b` reads without error: on
path `/echo` the response body is exactly `b`, on path `/hello` it is exactly
`Hello ` followed by `b`, both under status 200 and with nothing logged, and on
path `/missing` the response is the not-found one, status 404. -/
theorem echo_hello_table (routes : List Route)
    (hr : routes = [NewEchoHandler, NewHelloHandler] ∨
      routes = [NewHelloHandler, NewEchoHandler])
    (r : Request) (b : GoString) (hb : r.Body = ⟨b, none⟩) :
    (r.Path = "/echo".toList →
      (serve routes r).map (fun x => (x.1.body, http.statusCode x.1, x.2))
        = some (b, 200, [])) ∧
    (r.Path = "/hello".toList →
      (serve routes r).map (fun x => (x.1.body, http.statusCode x.1, x.2))
        = some ("Hello ".toList ++ b, 200, [])) ∧
    (r.Path = "/missing".toList →
      (serve routes r).map (fun x => (x.1.body, http.statusCode x.1, x.2))
        = some ("404 page not found\n".toList, 404, [])) := by
  have hnd : (routes.map Route.Pattern).Nodup := by
    rcases hr with rfl | rfl <;> decide
  have hroot : ∀ x ∈ routes, x.Pattern.head? = some '/' := by
    rcases hr with rfl | rfl <;> decide
  have hclean : ∀ x ∈ routes, http.cleanPath x.Pattern = x.Pattern := by
    rcases hr with rfl | rfl <;> decide
  have hE : NewEchoHandler ∈ routes := by
    rcases hr with rfl | rfl <;> simp
  have hH : NewHelloHandler ∈ routes := by
    rcases hr with rfl | rfl <;> simp
  have hne : ∀ x ∈ routes, x.Pattern ≠ [] := by
    intro x hx h
    have := hroot x hx
    rw [h] at this
    cases this
  obtain ⟨mux, hk⟩ := NewServeMux_succeeds hnd hne
  have hbuilt := Built_NewServeMux hk
  have hserve : serve routes r = some (mux.ServeHTTP http.newResponse r) := by
    unfold serve
    rw [hk]
  rw [hserve]
  refine ⟨fun hp => ?_, fun hp => ?_, fun hp => ?_⟩
  · rw [hbuilt.ServeHTTP_exact hroot hE (hclean _ hE) r hp]
    show Option.map _ (some (EchoHandler.ServeHTTP http.newResponse r)) = _
    unfold EchoHandler.ServeHTTP io.Copy
    rw [hb]
    by_cases hd : b = []
    · simp [hd, http.statusCode, http.newResponse, http.StatusOK]
    · simp [hd, http.statusCode, http.newResponse, http.Write, http.WriteHeader,
        http.StatusOK]
  · rw [hbuilt.ServeHTTP_exact hroot hH (hclean _ hH) r hp]
    show Option.map _ (some (HelloHandler.ServeHTTP http.newResponse r)) = _
    unfold HelloHandler.ServeHTTP io.ReadAll
    rw [hb]
    simp [http.statusCode, http.newResponse, http.Write, http.WriteHeader, http.StatusOK]
  · have hc : canonical r := by
      unfold canonical
      rw [hp]
      exact ⟨by decide, Or.inr (by decide)⟩
    have h1 := hbuilt.Handler_notFound r hc (missing_no_match routes hr r hp)
    have hstar : http.isAsteriskForm r = false := by
      unfold http.isAsteriskForm
      simpa using hc.1
    unfold http.ServeMux.ServeHTTP
    rw [hstar, h1]
    have : (http.Handler.notFound, ([] : GoString)).1.ServeHTTP http.newResponse r
        = (http.Error http.newResponse "404 page not found".toList http.StatusNotFound,
            []) := rfl
    rw [if_neg (by simp), this]
    decide

theorem echo_hello_table_witness :
    (serve [NewEchoHandler, NewHelloHandler]
        (request "POST".toList "/echo".toList "abc".toList)).map
        (fun x => (x.1.body, http.statusCode x.1, x.2)) = some ("abc".toList, 200, []) ∧
    (serve [NewEchoHandler, NewHelloHandler]
        (request "POST".toList "/hello".toList "world".toList)).map
        (fun x => (x.1.body, http.statusCode x.1, x.2))
      = some ("Hello world".toList, 200, []) ∧
    (serve [NewEchoHandler, NewHelloHandler]
        (request "GET".toList "/missing".toList [])).map
        (fun x => (x.1.body, http.statusCode x.1, x.2))
      = some ("404 page not found\n".toList, 404, []) :=
  ⟨(echo_hello_table _ (Or.inl rfl) (request "POST".toList "/echo".toList "abc".toList)
      "abc".toList rfl).1 rfl,
   (echo_hello_table _ (Or.inl rfl) (request "POST".toList "/hello".toList "world".toList)
      "world".toList rfl).2.1 rfl,
   (echo_hello_table _ (Or.inl rfl) (request "GET".toList "/missing".toList [])
      [] rfl).2.2 rfl⟩

end FxDemo
